import Mathlib

/-!
Verification development for the TorchSWE spatial-discretization core.

The Python sources embedded here:
  - torchswe/fvm.py          (kernel-dispatch finite-volume RHS, `Fvm.prepare_rhs`)
  - torchswe/core/fvm.py     (core finite-volume RHS, `Core.prepare_rhs`)
  - torchswe/bcs/__init__.py (ghost-cell updater setup)
  - cases/delestre_et_al_2013/case_4.2.2b/create_data.py (topo, exact_soln, grid)
  - cases/xing_shu_2005/case_5.3/create_data.py          (grid construction)

Machine floats are modelled by exact rationals plus explicit IEEE special
values (`NpVal`); arrays are lists of rationals.  External collaborators
(the reconstruction / speed / flux kernels, source-term callables, and the
backend boundary-condition factories) are not part of the sources; they
enter as function parameters, or as definitions explicitly marked
"Modelled from the spec".
-/

namespace TorchSWE

/-! ### A model of numpy/python float scalars

Only the values reachable in the embedded code paths matter: finite values,
the two infinities produced by dividing a nonzero finite value by zero
under errstate ignore, and NaN from 0/0. -/

inductive NpVal where
  | fin (q : ℚ)
  | posInf
  | negInf
  | nan
deriving DecidableEq

/-- Float division of two finite values: x / 0 follows IEEE754
(positive/negative infinity, or NaN when x = 0). -/
def fdiv (x y : ℚ) : NpVal :=
  if y = 0 then
    (if 0 < x then NpVal.posInf else if x < 0 then NpVal.negInf else NpVal.nan)
  else NpVal.fin (x / y)

/-- IEEE float strict order; NaN is incomparable with everything. -/
def npLt : NpVal → NpVal → Bool
  | NpVal.nan, _ => false
  | _, NpVal.nan => false
  | NpVal.negInf, NpVal.negInf => false
  | NpVal.negInf, _ => true
  | _, NpVal.negInf => false
  | NpVal.posInf, _ => false
  | NpVal.fin _, NpVal.posInf => true
  | NpVal.fin a, NpVal.fin b => decide (a < b)

/-- Python builtin min of two scalars: returns b when b < a, else a. -/
def py_min (a b : NpVal) : NpVal := if npLt b a then b else a

/-- numpy.minimum of two scalars: propagates NaN, otherwise the smaller. -/
def np_minimum (a b : NpVal) : NpVal :=
  if a = NpVal.nan ∨ b = NpVal.nan then NpVal.nan
  else if npLt b a then b else a

/-- numpy.nan_to_num as called by torchswe/core/fvm.py line 71:
nan replacement is float("NaN") itself (so NaN is kept), positive infinity
is replaced by the given finite value, negative infinity by the lowest
finite double (numpy default). -/
def nan_to_num (v : NpVal) (posinf : ℚ) : NpVal :=
  match v with
  | NpVal.nan => NpVal.nan
  | NpVal.posInf => NpVal.fin posinf
  | NpVal.negInf => NpVal.fin (-(2 ^ 1024 - 2 ^ 971))
  | NpVal.fin q => NpVal.fin q

/-- numpy.max reduction over a (flattened) array.  numpy raises on an empty
array; a grid always has at least one face, so the [] case is junk and all
theorems below either assume or exhibit nonempty speed arrays. -/
def np_max : List ℚ → ℚ
  | [] => 0
  | q :: qs => qs.foldl max q

/-! ### Arrays, faces and the States data model

torchswe.utils.data.States is an external collaborator (not under the
embedded sources); this structure reproduces the fields prepare_rhs reads
and writes, flattening each wave-speed array and keeping the common-flux
arrays three-dimensional (component, y, x).  An extra `log` field records
the invocations of the externally supplied pipeline stages; prepare_rhs
itself never touches it. -/

abbrev Arr3 := List (List (List ℚ))

/-- Elementwise subtraction of two 3-D arrays. -/
def ewSub3 (a b : Arr3) : Arr3 :=
  List.zipWith (List.zipWith (List.zipWith (fun p q => p - q))) a b

/-- Elementwise addition of two 3-D arrays. -/
def ewAdd3 (a b : Arr3) : Arr3 :=
  List.zipWith (List.zipWith (List.zipWith (fun p q => p + q))) a b

/-- Slice a[:, :, :-1]. -/
def sliceDropLastX (a : Arr3) : Arr3 := a.map (fun m => m.map List.dropLast)

/-- Slice a[:, :, 1:]. -/
def sliceTailX (a : Arr3) : Arr3 := a.map (fun m => m.map List.tail)

/-- Slice a[:, :-1, :]. -/
def sliceDropLastY (a : Arr3) : Arr3 := a.map List.dropLast

/-- Slice a[:, 1:, :]. -/
def sliceTailY (a : Arr3) : Arr3 := a.map List.tail

/-- Elementwise division of a 3-D array by a scalar. -/
def divScalar3 (a : Arr3) (c : ℚ) : Arr3 :=
  a.map (fun m => m.map (fun r => r.map (fun q => q / c)))

/-- Stage events used to observe the pipeline ordering of prepare_rhs.
A source event also records the right-hand-side array the callable saw. -/
inductive Event where
  | reconstruct_ev
  | local_speed_ev
  | disc_flux_ev
  | central_flux_ev
  | source_ev (i : ℕ) (sSeen : Arr3)
  | stiff_ev (i : ℕ)
deriving DecidableEq

/-- One side (plus or minus) of the face data; `a` is the flattened
one-sided wave-speed array. -/
structure FaceSide where
  a : List ℚ
deriving DecidableEq

/-- Face data along one axis.  `cf` is the common (central-scheme) flux:
torchswe/fvm.py names it face.x.cf, torchswe/core/fvm.py names it face.x.H;
both are the same array. -/
structure FaceAxis where
  plus : FaceSide
  minus : FaceSide
  cf : Arr3
deriving DecidableEq

structure Faces where
  x : FaceAxis
  y : FaceAxis
deriving DecidableEq

/-- Grid spacing information.  `delta` is the tuple unpacked as (dy, dx) in
torchswe/fvm.py line 59; torchswe/core/fvm.py reads the same quantities as
domain.x.delta = delta.2 and domain.y.delta = delta.1.  `delta_array` holds
the per-cell spacings used when allow_async is set; it is modelled for a
uniform grid with the same (dy, dx) layout. -/
structure Domain where
  delta : ℚ × ℚ
  delta_array : ℚ × ℚ
deriving DecidableEq

structure States where
  face : Faces
  s : Arr3
  domain : Domain
  log : List Event
deriving DecidableEq

structure Params where
  gravity : ℚ
  allow_async : Bool
  vectorize_bc : Bool
deriving DecidableEq

structure Temporal where
  dt : ℚ
deriving DecidableEq

structure Config where
  params : Params
  temporal : Temporal
deriving DecidableEq

/-- runtime.tol and runtime.dt.  runtime.sources and runtime.stiff_sources
are lists of callables receiving the runtime itself; they are passed to
prepare_rhs as separate arguments to keep Runtime a plain record. -/
structure Runtime where
  tol : ℚ
  dt : ℚ
deriving DecidableEq

/-- A source-term callable: func(states, runtime, config). -/
abbrev SourceTerm := States → Runtime → Config → States

/-- The flux-divergence right-hand side written into states.s:
(cf_x[:, :, :-1] - cf_x[:, :, 1:]) / dx + (cf_y[:, :-1, :] - cf_y[:, 1:, :]) / dy. -/
def flux_divergence (xcf ycf : Arr3) (dx dy : ℚ) : Arr3 :=
  ewAdd3 (divScalar3 (ewSub3 (sliceDropLastX xcf) (sliceTailX xcf)) dx)
         (divScalar3 (ewSub3 (sliceDropLastY ycf) (sliceTailY ycf)) dy)

/-- amax of prepare_rhs: max over x-axis faces of maximum(plus.a, -minus.a). -/
def x_speed_max (st : States) : ℚ :=
  np_max (List.zipWith (fun p m => max p (-m)) st.face.x.plus.a st.face.x.minus.a)

/-- bmax of prepare_rhs: max over y-axis faces of maximum(plus.a, -minus.a). -/
def y_speed_max (st : States) : ℚ :=
  np_max (List.zipWith (fun p m => max p (-m)) st.face.y.plus.a st.face.y.minus.a)

namespace Fvm

/-- torchswe/fvm.py prepare_rhs.  The four pipeline kernels (imported from
torchswe.kernels) and the source-term callables in runtime.sources and
runtime.stiff_sources are external, so they are taken as parameters. -/
def prepare_rhs (reconstruct get_local_speed get_discontinuous_flux central_scheme : States → States)
    (sources stiff_sources : List SourceTerm)
    (states : States) (runtime : Runtime) (config : Config) : States × NpVal :=
  let s1 := reconstruct states
  let s2 := get_local_speed s1
  let s3 := get_discontinuous_flux s2
  let s4 := central_scheme s3
  let d := if !config.params.allow_async then s4.domain.delta else s4.domain.delta_array
  let dy := d.1
  let dx := d.2
  let s5 := { s4 with s := flux_divergence s4.face.x.cf s4.face.y.cf dx dy }
  let s6 := sources.foldl (fun st f => f st runtime config) s5
  let s7 := stiff_sources.foldl (fun st f => f st runtime config) s6
  if !config.params.allow_async then
    let amax := x_speed_max s7
    let bmax := y_speed_max s7
    (s7, np_minimum (fdiv dx amax) (fdiv dy bmax))
  else
    (s7, NpVal.fin config.temporal.dt)

end Fvm

namespace Core

/-- torchswe/core/fvm.py prepare_rhs.  get_local_speed receives
config.params.gravity and central_scheme receives runtime.tol, exactly as
in the source; both kernels are external and taken as parameters. -/
def prepare_rhs (reconstruct : States → States) (get_local_speed : States → ℚ → States)
    (get_discontinuous_flux : States → States) (central_scheme : States → ℚ → States)
    (sources : List SourceTerm)
    (states : States) (runtime : Runtime) (config : Config) : States × NpVal :=
  let s1 := reconstruct states
  let s2 := get_local_speed s1 config.params.gravity
  let s3 := get_discontinuous_flux s2
  let s4 := central_scheme s3 runtime.tol
  let dx := s4.domain.delta.2
  let dy := s4.domain.delta.1
  let s5 := { s4 with s := flux_divergence s4.face.x.cf s4.face.y.cf dx dy }
  let s6 := sources.foldl (fun st f => f st runtime config) s5
  let amax := x_speed_max s6
  let bmax := y_speed_max s6
  let max_dt := py_min (fdiv (1 / 4 * dx) amax) (fdiv (1 / 4 * dy) bmax)
  (s6, nan_to_num max_dt runtime.dt)

end Core

/-- Instrumented pipeline stage: appends the given event to the log and
leaves every other field unchanged. -/
def log_stage (ev : Event) : States → States :=
  fun st => { st with log := st.log ++ [ev] }

/-- Instrumented explicit source callable: records its index and the
right-hand-side array it was handed. -/
def log_source (i : ℕ) : SourceTerm :=
  fun st _ _ => { st with log := st.log ++ [Event.source_ev i st.s] }

/-- Instrumented stiff source callable. -/
def log_stiff (i : ℕ) : SourceTerm :=
  fun st _ _ => { st with log := st.log ++ [Event.stiff_ev i] }

/-! ### Boundary-condition subsystem (torchswe/bcs/__init__.py)

The backend factories (outflow_bc_factory, linear_extrap_bc_factory,
const_val_bc_factory, inflow_bc_factory) live in compiled Cython/CuPy
modules outside the sources; a factory call is recorded as a `BCFunc` tag
carrying the orientation, the component index (the vectorized mode of
init_bc passes -1), and the boundary value where one is supplied. -/

inductive BCFunc where
  | outflow_bc (ornt : String) (comp : Int)
  | linear_extrap_bc (ornt : String) (comp : Int)
  | const_val_bc (ornt : String) (comp : Int) (val : Option ℚ)
  | inflow_bc (ornt : String) (comp : Int) (val : Option ℚ)
deriving DecidableEq

/-- The edge a boundary-condition updater writes to. -/
def BCFunc.ornt : BCFunc → String
  | outflow_bc o _ => o
  | linear_extrap_bc o _ => o
  | const_val_bc o _ _ => o
  | inflow_bc o _ _ => o

/-- The component index a boundary-condition updater was created for
(-1 for a collapsed vectorized updater). -/
def BCFunc.comp : BCFunc → Int
  | outflow_bc _ c => c
  | linear_extrap_bc _ c => c
  | const_val_bc _ c _ => c
  | inflow_bc _ c _ => c

/-- One edge of the boundary-condition configuration: a policy string and a
boundary value per component (w, hu, hv). -/
structure BCSide where
  types : List String
  values : List (Option ℚ)
deriving DecidableEq

structure BCConfig where
  west : BCSide
  east : BCSide
  south : BCSide
  north : BCSide
deriving DecidableEq

def orientations : List String := ["west", "east", "south", "north"]

/-- The side of the configuration selected by an orientation string. -/
def BCConfig.edge (bcs : BCConfig) (o : String) : BCSide :=
  if o = "west" then bcs.west
  else if o = "east" then bcs.east
  else if o = "south" then bcs.south
  else bcs.north

/-- The if/elif dispatch of get_ghost_cell_updaters on one
(policy, value) pair: one factory call, or ValueError (modelled as
Except.error) on anything unrecognized. -/
def dispatch_bc (ornt : String) (i : ℕ) (bctp : String) (bcv : Option ℚ) :
    Except String BCFunc :=
  if bctp = "outflow" then Except.ok (BCFunc.outflow_bc ornt (Int.ofNat i))
  else if bctp = "extrap" then Except.ok (BCFunc.linear_extrap_bc ornt (Int.ofNat i))
  else if bctp = "const" then Except.ok (BCFunc.const_val_bc ornt (Int.ofNat i) bcv)
  else if bctp = "inflow" then Except.ok (BCFunc.inflow_bc ornt (Int.ofNat i) bcv)
  else Except.error (bctp ++ " is not recognized.")

/-- The inner loop of get_ghost_cell_updaters over
enumerate(zip(bc.types, bc.values)), appending one updater per component
and propagating a raised ValueError. -/
def comp_updaters (ornt : String) (i : ℕ) :
    List (String × Option ℚ) → Except String (List BCFunc)
  | [] => Except.ok []
  | (bctp, bcv) :: rest =>
    match dispatch_bc ornt i bctp bcv with
    | Except.error e => Except.error e
    | Except.ok ff =>
      match comp_updaters ornt (i + 1) rest with
      | Except.error e => Except.error e
      | Except.ok fs => Except.ok (ff :: fs)

/-- One edge of get_ghost_cell_updaters: when the first component's policy
is "periodic" the whole edge is skipped (handled by halo exchange). -/
def edge_updaters (ornt : String) (bc : BCSide) : Except String (List BCFunc) :=
  if bc.types.headD "" = "periodic" then Except.ok []
  else comp_updaters ornt 0 (bc.types.zip bc.values)

/-- get_ghost_cell_updaters: iterate the four orientations in order,
propagating the first raised error.  The external validators bcs.check()
and states.check() are no-ops at this level of modelling. -/
def get_ghost_cell_updaters (bcs : BCConfig) : Except String (List BCFunc) :=
  match edge_updaters "west" bcs.west with
  | Except.error e => Except.error e
  | Except.ok fw =>
    match edge_updaters "east" bcs.east with
    | Except.error e => Except.error e
    | Except.ok fe =>
      match edge_updaters "south" bcs.south with
      | Except.error e => Except.error e
      | Except.ok fs =>
        match edge_updaters "north" bcs.north with
        | Except.error e => Except.error e
        | Except.ok fn => Except.ok (fw ++ fe ++ fs ++ fn)

/-- Whether an Except carries a value (no exception was raised). -/
def exceptOk {α : Type} (e : Except String α) : Bool :=
  match e with
  | Except.ok _ => true
  | Except.error _ => false

/-- bc_helper of init_bc: supports only "extrap" and "const"; anything else
merely prints an error message (collected in the second component) and
installs nothing. -/
def bc_helper (ornt : String) (bctp : String) (bcv : Option ℚ) (components : Int) :
    List BCFunc × List String :=
  if bctp = "extrap" then ([BCFunc.linear_extrap_bc ornt components], [])
  else if bctp = "const" then ([BCFunc.const_val_bc ornt components bcv], [])
  else ([], ["ERROR: Unsupported boundary condition."])

/-- The per-component loop of init_bc over enumerate(zip(bc.types, bc.values)). -/
def init_comps (ornt : String) (i : ℕ) :
    List (String × Option ℚ) → List BCFunc × List String
  | [] => ([], [])
  | (bctp, bcv) :: rest =>
    let r := bc_helper ornt bctp bcv (Int.ofNat i)
    let rs := init_comps ornt (i + 1) rest
    (r.1 ++ rs.1, r.2 ++ rs.2)

/-- One edge of init_bc: with vectorize_bc set and a single distinct policy
and a single distinct value along the edge, a single collapsed factory call
with components = -1; otherwise the per-component loop. -/
def init_edge (vectorize_bc : Bool) (ornt : String) (bc : BCSide) :
    List BCFunc × List String :=
  if vectorize_bc ∧ bc.types.dedup.length = 1 ∧ bc.values.dedup.length = 1 then
    bc_helper ornt (bc.types.headD "") (bc.values.headD none) (-1)
  else
    init_comps ornt 0 (bc.types.zip bc.values)

/-- init_bc: the four orientations in order.  It never raises; its result
is the installed updaters plus every printed error line. -/
def init_bc (bcs : BCConfig) (vectorize_bc : Bool) : List BCFunc × List String :=
  let w := init_edge vectorize_bc "west" bcs.west
  let e := init_edge vectorize_bc "east" bcs.east
  let s := init_edge vectorize_bc "south" bcs.south
  let n := init_edge vectorize_bc "north" bcs.north
  (w.1 ++ e.1 ++ s.1 ++ n.1, w.2 ++ e.2 ++ s.2 ++ n.2)

/-! ### Ghost-margin semantics of the installed updaters -/

/-- Ghost margins of a States: the ghost-cell values per (edge, component). -/
abbrev Ghost : Type := String → Fin 3 → List ℚ

/-- Abstract per-(edge, component) values computed by the backend
boundary-condition kernels (outflow copy, linear extrapolation, Dirichlet
reconstruction, inflow conversion); their concrete formulas live in the
compiled backend modules and are irrelevant to the claims below. -/
structure Kernels where
  outflow_val : String → Fin 3 → List ℚ
  extrap_val : String → Fin 3 → List ℚ
  const_val : String → Fin 3 → Option ℚ → List ℚ
  inflow_val : String → Fin 3 → Option ℚ → List ℚ

/-- Modelled from the spec: the compiled factories are not under the
embedded sources.  Per the boundary-condition table of the spec, an
updater returned by a factory writes only the ghost margin of its own
edge; a per-component updater writes only its component, and a vectorized
updater (components = -1) performs the identical per-component write for
every component of that edge. -/
def apply_bc (ker : Kernels) (f : BCFunc) (g : Ghost) : Ghost := fun o k =>
  match f with
  | BCFunc.outflow_bc ornt c =>
    if o = ornt ∧ (c = -1 ∨ (k.val : Int) = c) then ker.outflow_val o k else g o k
  | BCFunc.linear_extrap_bc ornt c =>
    if o = ornt ∧ (c = -1 ∨ (k.val : Int) = c) then ker.extrap_val o k else g o k
  | BCFunc.const_val_bc ornt c v =>
    if o = ornt ∧ (c = -1 ∨ (k.val : Int) = c) then ker.const_val o k v else g o k
  | BCFunc.inflow_bc ornt c v =>
    if o = ornt ∧ (c = -1 ∨ (k.val : Int) = c) then ker.inflow_val o k v else g o k

/-- The composed updater returned by the function factories: run every
installed updater in order over the ghost margins. -/
def run_updaters (ker : Kernels) (funcs : List BCFunc) (g : Ghost) : Ghost :=
  funcs.foldl (fun acc f => apply_bc ker f acc) g

/-! ### Central (Kurganov-Petrova) numerical flux -/

/-- Modelled from the spec: the central_scheme kernel (torchswe.kernels /
torchswe.core.flux) is not under the embedded sources.  Per spec section
4.4, at one face with one-sided speeds ap, am, one-sided fluxes fm, fp and
one-sided conservative states qm, qp, the common flux is
(ap fm - am fp)/(ap - am) + ap am/(ap - am) (qp - qm), falling back to the
arithmetic mean of the one-sided fluxes when ap - am is below the
configured tolerance (runtime.tol). -/
def central_scheme_flux (tol ap am fm fp qm qp : ℚ) : ℚ :=
  if ap - am < tol then (fm + fp) / 2
  else (ap * fm - am * fp) / (ap - am) + ap * am / (ap - am) * (qp - qm)

/-! ### Case-data generators (create_data.py of both cases) -/

/-- numpy.linspace over exact rationals: num evenly spaced samples from
start to stop, endpoints included. -/
def linspace (start stop : ℚ) (num : ℕ) : List ℚ :=
  (List.range num).map (fun i : ℕ => start + (stop - start) * (i : ℚ) / ((num : ℚ) - 1))

/-- The vertex coordinates of one axis as built in both create_data.py
main functions: linspace over the domain with discretization+1 points. -/
def grid_vertices (lo hi : ℚ) (discretization : ℕ) : List ℚ :=
  linspace lo hi (discretization + 1)

/-- Cell-center coordinates: xc = (x[:-1] + x[1:]) / 2. -/
def cell_centers (v : List ℚ) : List ℚ :=
  List.zipWith (fun p q => (p + q) / 2) v.dropLast v.tail

/-- Topography of the Delestre case (create_data.py).  numpy.sqrt has no
exact rational counterpart; the claims below hold for every function
sqrtf, so it is a parameter. -/
def topo (sqrtf : ℚ → ℚ) (x y h0 L a : ℚ) : ℚ :=
  let r := sqrtf ((x - L / 2) ^ 2 + (y - L / 2) ^ 2)
  Neg.neg (h0 * (1 - (r / a) ^ 2))

/-- exact_soln of the Delestre case: returns (w, hu, hv) at one point,
with the analytic depth clipped at zero (h[h < 0] = 0).  The
transcendental numpy functions are parameters, as for topo. -/
def exact_soln (sqrtf cosf sinf : ℚ → ℚ) (x y t g h0 L a eta : ℚ) : ℚ × ℚ × ℚ :=
  let omega := sqrtf (2 * h0 * g) / a
  let z := topo sqrtf x y h0 L a
  let cot := cosf (omega * t)
  let sot := sinf (omega * t)
  let h := eta * h0 * (2 * (x - L / 2) * cot + 2 * (y - L / 2) * sot - eta) / (a * a) - z
  let h := if h < 0 then 0 else h
  (h + z, -(h * eta * omega * sot), h * eta * omega * cot)

/-! ### Basic facts about the float model -/

lemma fdiv_of_ne (x y : ℚ) (hy : y ≠ 0) : fdiv x y = NpVal.fin (x / y) := by
  simp [fdiv, hy]

lemma fdiv_pos_zero (x : ℚ) (hx : 0 < x) : fdiv x 0 = NpVal.posInf := by
  simp [fdiv, hx]

lemma py_min_fin (u v : ℚ) : py_min (NpVal.fin u) (NpVal.fin v) = NpVal.fin (min u v) := by
  by_cases h : v < u
  · simp [py_min, npLt, h, min_eq_right h.le]
  · simp [py_min, npLt, h, min_eq_left (not_lt.1 h)]

lemma np_minimum_fin (u v : ℚ) :
    np_minimum (NpVal.fin u) (NpVal.fin v) = NpVal.fin (min u v) := by
  by_cases h : v < u
  · simp [np_minimum, npLt, h, min_eq_right h.le]
  · simp [np_minimum, npLt, h, min_eq_left (not_lt.1 h)]

lemma np_minimum_posInf : np_minimum NpVal.posInf NpVal.posInf = NpVal.posInf := by decide

lemma py_min_posInf : py_min NpVal.posInf NpVal.posInf = NpVal.posInf := by decide

lemma nan_to_num_fin (q r : ℚ) : nan_to_num (NpVal.fin q) r = NpVal.fin q := rfl

lemma nan_to_num_posInf (r : ℚ) : nan_to_num NpVal.posInf r = NpVal.fin r := rfl

/-! ### Claim C5 -/

/-- C5: at a face where the two one-sided speeds coincide (in particular
both zero), their difference 0 is below any positive configured tolerance,
so the central Kurganov-Petrova flux is exactly the arithmetic mean of the
two one-sided discontinuous fluxes and no division by ap - am happens. -/
theorem central_flux_mean_when_speeds_equal (tol a fm fp qm qp : ℚ) (htol : 0 < tol) :
    central_scheme_flux tol a a fm fp qm qp = (fm + fp) / 2 := by
  simp [central_scheme_flux, sub_self, htol]

/-- Witness for C5: tolerance 1, both speeds 2, one-sided fluxes 3 and 5. -/
theorem central_flux_mean_when_speeds_equal_witness :
    central_scheme_flux 1 2 2 3 5 7 9 = (3 + 5) / 2 :=
  central_flux_mean_when_speeds_equal 1 2 3 5 7 9 (by norm_num)

/-! ### Claim C10 -/

/-- C10: exact_soln of the Delestre case generator returns a surface
elevation w whose depth w - topo is the zero-clipped analytic depth, hence
non-negative, and both returned discharges are exactly zero wherever the
clipped depth is zero.  This holds for every choice of the transcendental
backend functions. -/
theorem exact_soln_nonneg_depth_dry_discharge
    (sqrtf cosf sinf : ℚ → ℚ) (x y t g h0 L a eta w hu hv : ℚ)
    (hw : exact_soln sqrtf cosf sinf x y t g h0 L a eta = (w, hu, hv)) :
    0 ≤ w - topo sqrtf x y h0 L a
    ∧ (w - topo sqrtf x y h0 L a = 0 → hu = 0 ∧ hv = 0) := by
  simp only [exact_soln, Prod.mk.injEq] at hw
  obtain ⟨h1, h2, h3⟩ := hw
  subst h1
  subst h2
  subst h3
  rw [add_sub_cancel_right]
  constructor
  · split
    · exact le_refl 0
    · next hr => exact le_of_not_lt hr
  · intro h0
    rw [h0]
    constructor
    · ring
    · ring

/-- Witness for C10 at a concrete fully dry input (all backend functions
zero, h0 = 0): the depth is 0 and both discharges vanish. -/
theorem exact_soln_nonneg_depth_dry_discharge_witness :
    0 ≤ (0 : ℚ) - topo (fun _ => 0) 0 0 0 0 1
    ∧ ((0 : ℚ) - topo (fun _ => 0) 0 0 0 0 1 = 0 → (0 : ℚ) = 0 ∧ (0 : ℚ) = 0) :=
  exact_soln_nonneg_depth_dry_discharge (fun _ => 0) (fun _ => 0) (fun _ => 0)
    0 0 0 0 0 0 1 1 0 0 0 (by norm_num [exact_soln, topo])

/-! ### Claim C8 -/

lemma zipWith_self_map {α β : Type} (f : α → α → β) (l : List α) :
    List.zipWith f l l = l.map (fun a => f a a) := by
  induction l with
  | nil => rfl
  | cons a l ih => simp [ih]

/-- cell_centers of a mapped range is the mapped range of midpoints. -/
lemma cell_centers_map_range (f : ℕ → ℚ) (n : ℕ) :
    cell_centers ((List.range (n + 1)).map f)
      = (List.range n).map (fun j => (f j + f (j + 1)) / 2) := by
  have hdrop : ((List.range (n + 1)).map f).dropLast = (List.range n).map f := by
    rw [List.range_succ, List.map_append]
    simp
  have htail : ((List.range (n + 1)).map f).tail
      = (List.range n).map (fun j => f (j + 1)) := by
    rw [List.range_succ_eq_map]
    simp [List.map_map]
  rw [cell_centers, hdrop, htail, List.zipWith_map, zipWith_self_map]

/-- C8: the generated grid has one more vertex than cells per axis, the
cell-center coordinates are the midpoints of their bounding vertices, and
the vertex spacing is the constant positive value (hi - lo) / n. -/
theorem grid_vertices_cells_invariant (lo hi : ℚ) (n j : ℕ)
    (hlh : lo < hi) (hn : 0 < n) (hj : j < n) :
    (grid_vertices lo hi n).length = (cell_centers (grid_vertices lo hi n)).length + 1
    ∧ (cell_centers (grid_vertices lo hi n)).length = n
    ∧ (cell_centers (grid_vertices lo hi n))[j]? =
        some (((grid_vertices lo hi n)[j]?.getD 0 + (grid_vertices lo hi n)[j + 1]?.getD 0) / 2)
    ∧ (grid_vertices lo hi n)[j + 1]?.getD 0 - (grid_vertices lo hi n)[j]?.getD 0
        = (hi - lo) / n
    ∧ 0 < (hi - lo) / n := by
  have hn0 : ((n : ℚ)) ≠ 0 := by
    exact_mod_cast hn.ne.symm
  have hden : (((n + 1 : ℕ)) : ℚ) - 1 = (n : ℚ) := by
    push_cast
    ring
  have hgv : grid_vertices lo hi n
      = (List.range (n + 1)).map (fun i : ℕ => lo + (hi - lo) * (i : ℚ) / ((n : ℚ))) := by
    rw [grid_vertices, linspace]
    simp only [hden]
  have hget : ∀ i : ℕ, i < n + 1 →
      (grid_vertices lo hi n)[i]? = some (lo + (hi - lo) * (i : ℚ) / ((n : ℚ))) := by
    intro i hi2
    rw [hgv]
    simp [List.getElem?_map, List.getElem?_range, hi2]
  have hlen1 : (grid_vertices lo hi n).length = n + 1 := by
    rw [hgv]
    simp
  have hlen2 : (cell_centers (grid_vertices lo hi n)).length = n := by
    rw [hgv, cell_centers_map_range]
    simp
  refine ⟨?_, hlen2, ?_, ?_, ?_⟩
  · rw [hlen1, hlen2]
  · have h1 : j < n + 1 := Nat.lt_succ_of_lt hj
    have h2 : j + 1 < n + 1 := Nat.succ_lt_succ hj
    rw [hget j h1, hget (j + 1) h2, hgv, cell_centers_map_range]
    simp [List.getElem?_map, List.getElem?_range, hj]
  · have h1 : j < n + 1 := Nat.lt_succ_of_lt hj
    have h2 : j + 1 < n + 1 := Nat.succ_lt_succ hj
    rw [hget j h1, hget (j + 1) h2]
    simp only [Option.getD_some]
    push_cast
    field_simp
    ring
  · exact div_pos (sub_pos.2 hlh) (by exact_mod_cast hn)

/-! ### The dt computation of prepare_rhs (claims C1, C2) -/

/-- In the non-async branch, the dt returned by torchswe/fvm.py is
numpy.minimum(dx/amax, dy/bmax), with (dy, dx) read from the post-stage
state and the speed maxima from the final (post-source) state. -/
lemma Fvm.prepare_rhs_dt_formula_nonasync (f1 f2 f3 f4 : States → States) (srcs stf : List SourceTerm)
    (st : States) (rt : Runtime) (cfg : Config) (h : cfg.params.allow_async = false) :
    (Fvm.prepare_rhs f1 f2 f3 f4 srcs stf st rt cfg).2 =
      np_minimum
        (fdiv (f4 (f3 (f2 (f1 st)))).domain.delta.2
          (x_speed_max (Fvm.prepare_rhs f1 f2 f3 f4 srcs stf st rt cfg).1))
        (fdiv (f4 (f3 (f2 (f1 st)))).domain.delta.1
          (y_speed_max (Fvm.prepare_rhs f1 f2 f3 f4 srcs stf st rt cfg).1)) := by
  simp [Fvm.prepare_rhs, h]

/-- In the async branch, torchswe/fvm.py returns config.temporal.dt. -/
lemma Fvm.prepare_rhs_dt_async (f1 f2 f3 f4 : States → States) (srcs stf : List SourceTerm)
    (st : States) (rt : Runtime) (cfg : Config) (h : cfg.params.allow_async = true) :
    (Fvm.prepare_rhs f1 f2 f3 f4 srcs stf st rt cfg).2 = NpVal.fin cfg.temporal.dt := by
  simp [Fvm.prepare_rhs, h]

/-- The dt returned by torchswe/core/fvm.py is
nan_to_num(min(0.25 dx/amax, 0.25 dy/bmax), posinf = runtime.dt). -/
lemma Core.prepare_rhs_dt_value (g1 g3 : States → States) (g2 g4 : States → ℚ → States)
    (csrcs : List SourceTerm) (st : States) (rt : Runtime) (cfg : Config) :
    (Core.prepare_rhs g1 g2 g3 g4 csrcs st rt cfg).2 =
      nan_to_num
        (py_min
          (fdiv (1 / 4 * (g4 (g3 (g2 (g1 st) cfg.params.gravity)) rt.tol).domain.delta.2)
            (x_speed_max (Core.prepare_rhs g1 g2 g3 g4 csrcs st rt cfg).1))
          (fdiv (1 / 4 * (g4 (g3 (g2 (g1 st) cfg.params.gravity)) rt.tol).domain.delta.1)
            (y_speed_max (Core.prepare_rhs g1 g2 g3 g4 csrcs st rt cfg).1)))
        rt.dt := by
  simp [Core.prepare_rhs]

/-- A minimal concrete States value: one face per axis with one-sided
speeds (q, -q), a 1x1x2 common-flux array and unit grid spacings. -/
def sampleStates (q : ℚ) : States :=
  { face :=
      { x := { plus := { a := [q] }, minus := { a := [-q] }, cf := [[[0, 0]]] }
      , y := { plus := { a := [q] }, minus := { a := [-q] }, cf := [[[0], [0]]] } }
  , s := [[[0]]]
  , domain := { delta := (1, 1), delta_array := (1, 1) }
  , log := [] }

def sampleRuntime : Runtime := { tol := 1 / 1000000, dt := 7 }

def sampleConfig : Config :=
  { params := { gravity := 981 / 100, allow_async := false, vectorize_bc := false }
  , temporal := { dt := 5 } }

/-! ### Claim C1 -/

/-- C1 (amended): whenever the maximal one-sided wave speeds of both axes
are positive, torchswe/core/fvm.py prepare_rhs returns exactly
min(0.25 dx/amax, 0.25 dy/bmax); torchswe/fvm.py prepare_rhs (non-async
branch) omits the 0.25 safety factor and returns min(dx/amax, dy/bmax).
amax (resp. bmax) is the maximum over x-axis (resp. y-axis) faces of
maximum(a_plus, -a_minus) of the final state. -/
theorem prepare_rhs_max_dt_formula
    (f1 f2 f3 f4 : States → States) (srcs stf : List SourceTerm)
    (g1 g3 : States → States) (g2 g4 : States → ℚ → States) (csrcs : List SourceTerm)
    (stF stC : States) (rtF rtC : Runtime) (cfgF cfgC : Config)
    (hasync : cfgF.params.allow_async = false)
    (haF : 0 < x_speed_max (Fvm.prepare_rhs f1 f2 f3 f4 srcs stf stF rtF cfgF).1)
    (hbF : 0 < y_speed_max (Fvm.prepare_rhs f1 f2 f3 f4 srcs stf stF rtF cfgF).1)
    (haC : 0 < x_speed_max (Core.prepare_rhs g1 g2 g3 g4 csrcs stC rtC cfgC).1)
    (hbC : 0 < y_speed_max (Core.prepare_rhs g1 g2 g3 g4 csrcs stC rtC cfgC).1) :
    (Fvm.prepare_rhs f1 f2 f3 f4 srcs stf stF rtF cfgF).2
      = NpVal.fin
          (min ((f4 (f3 (f2 (f1 stF)))).domain.delta.2
                  / x_speed_max (Fvm.prepare_rhs f1 f2 f3 f4 srcs stf stF rtF cfgF).1)
               ((f4 (f3 (f2 (f1 stF)))).domain.delta.1
                  / y_speed_max (Fvm.prepare_rhs f1 f2 f3 f4 srcs stf stF rtF cfgF).1))
    ∧ (Core.prepare_rhs g1 g2 g3 g4 csrcs stC rtC cfgC).2
      = NpVal.fin
          (min (1 / 4 * (g4 (g3 (g2 (g1 stC) cfgC.params.gravity)) rtC.tol).domain.delta.2
                  / x_speed_max (Core.prepare_rhs g1 g2 g3 g4 csrcs stC rtC cfgC).1)
               (1 / 4 * (g4 (g3 (g2 (g1 stC) cfgC.params.gravity)) rtC.tol).domain.delta.1
                  / y_speed_max (Core.prepare_rhs g1 g2 g3 g4 csrcs stC rtC cfgC).1)) := by
  constructor
  · rw [Fvm.prepare_rhs_dt_formula_nonasync f1 f2 f3 f4 srcs stf stF rtF cfgF hasync,
        fdiv_of_ne _ _ haF.ne', fdiv_of_ne _ _ hbF.ne', np_minimum_fin]
  · rw [Core.prepare_rhs_dt_value g1 g3 g2 g4 csrcs stC rtC cfgC,
        fdiv_of_ne _ _ haC.ne', fdiv_of_ne _ _ hbC.ne', py_min_fin, nan_to_num_fin]

/-- Witness for C1 at unit spacings and unit wave speeds. -/
theorem prepare_rhs_max_dt_formula_witness :
    (Fvm.prepare_rhs id id id id [] [] (sampleStates 1) sampleRuntime sampleConfig).2
      = NpVal.fin
          (min ((id (id (id (id (sampleStates 1))))).domain.delta.2
                  / x_speed_max (Fvm.prepare_rhs id id id id [] [] (sampleStates 1) sampleRuntime sampleConfig).1)
               ((id (id (id (id (sampleStates 1))))).domain.delta.1
                  / y_speed_max (Fvm.prepare_rhs id id id id [] [] (sampleStates 1) sampleRuntime sampleConfig).1))
    ∧ (Core.prepare_rhs id (fun s _ => s) id (fun s _ => s) [] (sampleStates 1) sampleRuntime sampleConfig).2
      = NpVal.fin
          (min (1 / 4 * ((fun s _ => s) (id ((fun s _ => s) (id (sampleStates 1)) sampleConfig.params.gravity)) sampleRuntime.tol).domain.delta.2
                  / x_speed_max (Core.prepare_rhs id (fun s _ => s) id (fun s _ => s) [] (sampleStates 1) sampleRuntime sampleConfig).1)
               (1 / 4 * ((fun s _ => s) (id ((fun s _ => s) (id (sampleStates 1)) sampleConfig.params.gravity)) sampleRuntime.tol).domain.delta.1
                  / y_speed_max (Core.prepare_rhs id (fun s _ => s) id (fun s _ => s) [] (sampleStates 1) sampleRuntime sampleConfig).1)) :=
  prepare_rhs_max_dt_formula id id id id [] [] id id (fun s _ => s) (fun s _ => s) []
    (sampleStates 1) (sampleStates 1) sampleRuntime sampleRuntime sampleConfig sampleConfig
    rfl (by decide) (by decide) (by decide) (by decide)

/-- Counterexample to C1 as stated: on a unit-spacing state with unit wave
speeds, torchswe/fvm.py prepare_rhs returns dt = 1, not the claimed
min(0.25 dx/amax, 0.25 dy/bmax) = 1/4. -/
theorem prepare_rhs_max_dt_formula_counterexample :
    ¬ (Fvm.prepare_rhs id id id id [] [] (sampleStates 1) sampleRuntime sampleConfig).2
        = NpVal.fin (1 / 4 * 1 / 1) := by
  rw [Fvm.prepare_rhs_dt_formula_nonasync id id id id [] [] (sampleStates 1) sampleRuntime sampleConfig rfl]
  norm_num [Fvm.prepare_rhs, x_speed_max, y_speed_max, np_max, sampleStates, sampleConfig,
    sampleRuntime, fdiv, np_minimum, npLt]
  rw [if_neg (fun hcontra => NpVal.noConfusion hcontra)]
  intro hcon
  have h14 : (1 : ℚ) = 1 / 4 := by injection hcon
  norm_num at h14

/-! ### Claim C2 -/

/-- C2 (amended): when the maximal one-sided wave speed is zero on both
axes (fully dry or zero-flow domain) and the grid spacings are positive,
torchswe/core/fvm.py prepare_rhs resolves max_dt to the configured ceiling
runtime.dt (never inf or NaN), and the async branch of torchswe/fvm.py
returns config.temporal.dt; but the non-async branch of torchswe/fvm.py
returns positive infinity instead of the ceiling. -/
theorem prepare_rhs_degenerate_dt
    (f1 f2 f3 f4 : States → States) (srcs stf : List SourceTerm)
    (g1 g3 : States → States) (g2 g4 : States → ℚ → States) (csrcs : List SourceTerm)
    (stF stC : States) (rtF rtC : Runtime) (cfgF cfgC cfgA : Config)
    (hasync : cfgF.params.allow_async = false)
    (hasyncA : cfgA.params.allow_async = true)
    (haF : x_speed_max (Fvm.prepare_rhs f1 f2 f3 f4 srcs stf stF rtF cfgF).1 = 0)
    (hbF : y_speed_max (Fvm.prepare_rhs f1 f2 f3 f4 srcs stf stF rtF cfgF).1 = 0)
    (hdxF : 0 < (f4 (f3 (f2 (f1 stF)))).domain.delta.2)
    (hdyF : 0 < (f4 (f3 (f2 (f1 stF)))).domain.delta.1)
    (haC : x_speed_max (Core.prepare_rhs g1 g2 g3 g4 csrcs stC rtC cfgC).1 = 0)
    (hbC : y_speed_max (Core.prepare_rhs g1 g2 g3 g4 csrcs stC rtC cfgC).1 = 0)
    (hdxC : 0 < (g4 (g3 (g2 (g1 stC) cfgC.params.gravity)) rtC.tol).domain.delta.2)
    (hdyC : 0 < (g4 (g3 (g2 (g1 stC) cfgC.params.gravity)) rtC.tol).domain.delta.1) :
    (Core.prepare_rhs g1 g2 g3 g4 csrcs stC rtC cfgC).2 = NpVal.fin rtC.dt
    ∧ (Fvm.prepare_rhs f1 f2 f3 f4 srcs stf stF rtF cfgF).2 = NpVal.posInf
    ∧ (Fvm.prepare_rhs f1 f2 f3 f4 srcs stf stF rtF cfgA).2 = NpVal.fin cfgA.temporal.dt := by
  refine ⟨?_, ?_, ?_⟩
  · rw [Core.prepare_rhs_dt_value g1 g3 g2 g4 csrcs stC rtC cfgC, haC, hbC,
        fdiv_pos_zero _ (mul_pos (by norm_num) hdxC),
        fdiv_pos_zero _ (mul_pos (by norm_num) hdyC),
        py_min_posInf, nan_to_num_posInf]
  · rw [Fvm.prepare_rhs_dt_formula_nonasync f1 f2 f3 f4 srcs stf stF rtF cfgF hasync, haF, hbF,
        fdiv_pos_zero _ hdxF, fdiv_pos_zero _ hdyF, np_minimum_posInf]
  · exact Fvm.prepare_rhs_dt_async f1 f2 f3 f4 srcs stf stF rtF cfgA hasyncA

def sampleConfigAsync : Config :=
  { params := { gravity := 981 / 100, allow_async := true, vectorize_bc := false }
  , temporal := { dt := 5 } }

/-- Witness for C2 on a fully quiescent state (all wave speeds zero). -/
theorem prepare_rhs_degenerate_dt_witness :
    (Core.prepare_rhs id (fun s _ => s) id (fun s _ => s) [] (sampleStates 0) sampleRuntime sampleConfig).2
      = NpVal.fin sampleRuntime.dt
    ∧ (Fvm.prepare_rhs id id id id [] [] (sampleStates 0) sampleRuntime sampleConfig).2 = NpVal.posInf
    ∧ (Fvm.prepare_rhs id id id id [] [] (sampleStates 0) sampleRuntime sampleConfigAsync).2
        = NpVal.fin sampleConfigAsync.temporal.dt :=
  prepare_rhs_degenerate_dt id id id id [] [] id id (fun s _ => s) (fun s _ => s) []
    (sampleStates 0) (sampleStates 0) sampleRuntime sampleRuntime
    sampleConfig sampleConfig sampleConfigAsync rfl rfl
    (by decide) (by decide) (by decide) (by decide) (by decide) (by decide) (by decide) (by decide)

/-- Counterexample to C2 as stated: on a fully quiescent state the
non-async torchswe/fvm.py prepare_rhs returns positive infinity, not the
configured dt ceiling. -/
theorem prepare_rhs_degenerate_dt_counterexample :
    (Fvm.prepare_rhs id id id id [] [] (sampleStates 0) sampleRuntime sampleConfig).2 = NpVal.posInf
    ∧ ¬ (Fvm.prepare_rhs id id id id [] [] (sampleStates 0) sampleRuntime sampleConfig).2
          = NpVal.fin sampleRuntime.dt := by
  decide

/-! ### Claim C4 -/

lemma foldl_log_source (rt : Runtime) (cfg : Config) (l : List ℕ) (st : States) :
    ((l.map log_source).foldl (fun s f => f s rt cfg) st)
      = { st with log := st.log ++ l.map (fun i => Event.source_ev i st.s) } := by
  induction l generalizing st with
  | nil => simp
  | cons i is ih =>
    simp only [List.map_cons, List.foldl_cons]
    rw [ih]
    simp [log_source]

lemma foldl_log_stiff (rt : Runtime) (cfg : Config) (l : List ℕ) (st : States) :
    ((l.map log_stiff).foldl (fun s f => f s rt cfg) st)
      = { st with log := st.log ++ l.map Event.stiff_ev } := by
  induction l generalizing st with
  | nil => simp
  | cons i is ih =>
    simp only [List.map_cons, List.foldl_cons]
    rw [ih]
    simp [log_stiff]

/-- C4: with every pipeline stage and source callable instrumented to log
its invocation, prepare_rhs records exactly one event per stage, in the
fixed order reconstruct, local speeds, discontinuous flux, central flux,
then each explicit source in order - every one handed an S field already
equal to the flux divergence - then each stiff source in order; and the
returned dt is the CFL value of the final state (computed last).  The
first two conjuncts cover torchswe/fvm.py, the third covers
torchswe/core/fvm.py (which has no stiff-source loop). -/
theorem prepare_rhs_stage_order (n m : ℕ) (st : States) (rt : Runtime)
    (grav tdt : ℚ) (vb : Bool) :
    ((Fvm.prepare_rhs (log_stage Event.reconstruct_ev) (log_stage Event.local_speed_ev)
        (log_stage Event.disc_flux_ev) (log_stage Event.central_flux_ev)
        ((List.range n).map log_source) ((List.range m).map log_stiff)
        st rt
        { params := { gravity := grav, allow_async := false, vectorize_bc := vb }
        , temporal := { dt := tdt } }).1).log
      = st.log
          ++ [Event.reconstruct_ev, Event.local_speed_ev, Event.disc_flux_ev, Event.central_flux_ev]
          ++ (List.range n).map (fun i => Event.source_ev i
                (flux_divergence st.face.x.cf st.face.y.cf st.domain.delta.2 st.domain.delta.1))
          ++ (List.range m).map Event.stiff_ev
    ∧ (Fvm.prepare_rhs (log_stage Event.reconstruct_ev) (log_stage Event.local_speed_ev)
        (log_stage Event.disc_flux_ev) (log_stage Event.central_flux_ev)
        ((List.range n).map log_source) ((List.range m).map log_stiff)
        st rt
        { params := { gravity := grav, allow_async := false, vectorize_bc := vb }
        , temporal := { dt := tdt } }).2
      = np_minimum (fdiv st.domain.delta.2 (x_speed_max st)) (fdiv st.domain.delta.1 (y_speed_max st))
    ∧ ((Core.prepare_rhs (log_stage Event.reconstruct_ev)
        (fun s _ => log_stage Event.local_speed_ev s)
        (log_stage Event.disc_flux_ev) (fun s _ => log_stage Event.central_flux_ev s)
        ((List.range n).map log_source) st rt
        { params := { gravity := grav, allow_async := false, vectorize_bc := vb }
        , temporal := { dt := tdt } }).1).log
      = st.log
          ++ [Event.reconstruct_ev, Event.local_speed_ev, Event.disc_flux_ev, Event.central_flux_ev]
          ++ (List.range n).map (fun i => Event.source_ev i
                (flux_divergence st.face.x.cf st.face.y.cf st.domain.delta.2 st.domain.delta.1)) := by
  refine ⟨?_, ?_, ?_⟩
  · simp [Fvm.prepare_rhs, log_stage, foldl_log_source, foldl_log_stiff, List.append_assoc]
  · simp [Fvm.prepare_rhs, log_stage, foldl_log_source, foldl_log_stiff,
      x_speed_max, y_speed_max]
  · simp [Core.prepare_rhs, log_stage, foldl_log_source, List.append_assoc]

/-- Witness for C8: domain [0, 1] with 2 cells, first cell. -/
theorem grid_vertices_cells_invariant_witness :
    (grid_vertices 0 1 2).length = (cell_centers (grid_vertices 0 1 2)).length + 1
    ∧ (cell_centers (grid_vertices 0 1 2)).length = 2
    ∧ (cell_centers (grid_vertices 0 1 2))[0]? =
        some (((grid_vertices 0 1 2)[0]?.getD 0 + (grid_vertices 0 1 2)[0 + 1]?.getD 0) / 2)
    ∧ (grid_vertices 0 1 2)[0 + 1]?.getD 0 - (grid_vertices 0 1 2)[0]?.getD 0
        = ((1 : ℚ) - 0) / 2
    ∧ 0 < ((1 : ℚ) - 0) / 2 :=
  grid_vertices_cells_invariant 0 1 2 0 (by norm_num) (by norm_num) (by norm_num)

/-! ### Infrastructure lemmas for the boundary-condition claims -/

lemma dispatch_bc_ornt (o : String) (i : ℕ) (bctp : String) (bcv : Option ℚ) (f : BCFunc)
    (h : dispatch_bc o i bctp bcv = Except.ok f) : f.ornt = o := by
  unfold dispatch_bc at h
  split_ifs at h
  all_goals first
    | exact Except.noConfusion h
    | (injection h with h2; subst h2; rfl)

lemma dispatch_bc_unknown (o : String) (i : ℕ) (bctp : String) (bcv : Option ℚ)
    (h1 : bctp ≠ "outflow") (h2 : bctp ≠ "extrap") (h3 : bctp ≠ "const")
    (h4 : bctp ≠ "inflow") :
    dispatch_bc o i bctp bcv = Except.error (bctp ++ " is not recognized.") := by
  simp [dispatch_bc, h1, h2, h3, h4]

lemma comp_updaters_ornt (o : String) (pairs : List (String × Option ℚ)) (i : ℕ)
    (fs : List BCFunc) (h : comp_updaters o i pairs = Except.ok fs) :
    ∀ f ∈ fs, f.ornt = o := by
  induction pairs generalizing i fs with
  | nil =>
    simp only [comp_updaters] at h
    cases h
    simp
  | cons p rest ih =>
    obtain ⟨bctp, bcv⟩ := p
    simp only [comp_updaters] at h
    cases hd : dispatch_bc o i bctp bcv with
    | error e => rw [hd] at h; exact Except.noConfusion h
    | ok ff =>
      rw [hd] at h
      cases hrec : comp_updaters o (i + 1) rest with
      | error e => rw [hrec] at h; exact Except.noConfusion h
      | ok fs' =>
        rw [hrec] at h
        cases h
        intro f hf
        rcases List.mem_cons.1 hf with rfl | hf'
        · exact dispatch_bc_ornt o i bctp bcv f hd
        · exact ih (i + 1) fs' hrec f hf'

lemma comp_updaters_error_of_unknown (o : String) (t : String) (v : Option ℚ)
    (pairs : List (String × Option ℚ)) (i : ℕ)
    (hmem : (t, v) ∈ pairs)
    (h1 : t ≠ "outflow") (h2 : t ≠ "extrap") (h3 : t ≠ "const") (h4 : t ≠ "inflow") :
    exceptOk (comp_updaters o i pairs) = false := by
  induction pairs generalizing i with
  | nil => simp at hmem
  | cons p rest ih =>
    obtain ⟨bctp, bcv⟩ := p
    rcases List.mem_cons.1 hmem with heq | hmem'
    · injection heq with ha hb
      subst ha
      subst hb
      simp [comp_updaters, dispatch_bc_unknown o i t v h1 h2 h3 h4, exceptOk]
    · cases hd : dispatch_bc o i bctp bcv with
      | error e => simp [comp_updaters, hd, exceptOk]
      | ok ff =>
        have hrec := ih (i + 1) hmem'
        cases hr : comp_updaters o (i + 1) rest with
        | error e => simp [comp_updaters, hd, hr, exceptOk]
        | ok fs' => rw [hr] at hrec; simp [exceptOk] at hrec

lemma edge_updaters_periodic (o : String) (bc : BCSide)
    (h : bc.types.headD "" = "periodic") : edge_updaters o bc = Except.ok [] := by
  unfold edge_updaters
  rw [if_pos h]

lemma edge_updaters_ornt (o : String) (bc : BCSide) (fs : List BCFunc)
    (h : edge_updaters o bc = Except.ok fs) : ∀ f ∈ fs, f.ornt = o := by
  unfold edge_updaters at h
  by_cases hper : bc.types.headD "" = "periodic"
  · rw [if_pos hper] at h
    cases h
    simp
  · rw [if_neg hper] at h
    exact comp_updaters_ornt o (bc.types.zip bc.values) 0 fs h

lemma edge_updaters_error_of_unknown (o : String) (bc : BCSide) (t : String) (v : Option ℚ)
    (hhead : bc.types.headD "" ≠ "periodic")
    (hmem : (t, v) ∈ bc.types.zip bc.values)
    (h1 : t ≠ "outflow") (h2 : t ≠ "extrap") (h3 : t ≠ "const") (h4 : t ≠ "inflow") :
    exceptOk (edge_updaters o bc) = false := by
  rw [edge_updaters, if_neg hhead]
  exact comp_updaters_error_of_unknown o t v (bc.types.zip bc.values) 0 hmem h1 h2 h3 h4

lemma get_ghost_ok (bcs : BCConfig) (funcs : List BCFunc)
    (h : get_ghost_cell_updaters bcs = Except.ok funcs) :
    ∃ fw fe fs fn, edge_updaters "west" bcs.west = Except.ok fw
      ∧ edge_updaters "east" bcs.east = Except.ok fe
      ∧ edge_updaters "south" bcs.south = Except.ok fs
      ∧ edge_updaters "north" bcs.north = Except.ok fn
      ∧ funcs = fw ++ fe ++ fs ++ fn := by
  unfold get_ghost_cell_updaters at h
  cases hw : edge_updaters "west" bcs.west with
  | error e => rw [hw] at h; exact Except.noConfusion h
  | ok fw =>
    rw [hw] at h
    cases he : edge_updaters "east" bcs.east with
    | error e => rw [he] at h; exact Except.noConfusion h
    | ok fe =>
      rw [he] at h
      cases hs : edge_updaters "south" bcs.south with
      | error e => rw [hs] at h; exact Except.noConfusion h
      | ok fs =>
        rw [hs] at h
        cases hn : edge_updaters "north" bcs.north with
        | error e => rw [hn] at h; exact Except.noConfusion h
        | ok fn =>
          rw [hn] at h
          cases h
          exact ⟨fw, fe, fs, fn, rfl, rfl, rfl, rfl, rfl⟩

lemma filter_ornt_ne (l : List BCFunc) (E : String) (h : ∀ f ∈ l, f.ornt ≠ E) :
    l.filter (fun f => f.ornt == E) = [] := by
  induction l with
  | nil => rfl
  | cons f rest ih =>
    rw [List.filter_cons]
    have hne : (f.ornt == E) = false := beq_false_of_ne (h f (List.mem_cons_self f rest))
    rw [hne]
    exact ih (fun f' hf' => h f' (List.mem_cons_of_mem f hf'))

lemma apply_bc_ne (ker : Kernels) (f : BCFunc) (g : Ghost) (o : String) (k : Fin 3)
    (h : f.ornt ≠ o) : apply_bc ker f g o k = g o k := by
  cases f with
  | outflow_bc o1 c =>
    simp only [BCFunc.ornt] at h
    simp only [apply_bc]
    rw [if_neg]
    rintro ⟨rfl, -⟩
    exact h rfl
  | linear_extrap_bc o1 c =>
    simp only [BCFunc.ornt] at h
    simp only [apply_bc]
    rw [if_neg]
    rintro ⟨rfl, -⟩
    exact h rfl
  | const_val_bc o1 c v =>
    simp only [BCFunc.ornt] at h
    simp only [apply_bc]
    rw [if_neg]
    rintro ⟨rfl, -⟩
    exact h rfl
  | inflow_bc o1 c v =>
    simp only [BCFunc.ornt] at h
    simp only [apply_bc]
    rw [if_neg]
    rintro ⟨rfl, -⟩
    exact h rfl

lemma run_updaters_frame (ker : Kernels) (l : List BCFunc) (g : Ghost) (E : String)
    (k : Fin 3) (h : ∀ f ∈ l, f.ornt ≠ E) : run_updaters ker l g E k = g E k := by
  induction l generalizing g with
  | nil => rfl
  | cons f rest ih =>
    show run_updaters ker rest (apply_bc ker f g) E k = g E k
    rw [ih (apply_bc ker f g) (fun f' hf' => h f' (List.mem_cons_of_mem f hf'))]
    exact apply_bc_ne ker f g E k (h f (List.mem_cons_self f rest))

lemma run_updaters_append (ker : Kernels) (l1 l2 : List BCFunc) (g : Ghost) :
    run_updaters ker (l1 ++ l2) g = run_updaters ker l2 (run_updaters ker l1 g) := by
  simp [run_updaters, List.foldl_append]

/-- If an edge's first component policy is periodic, no installed updater
targets that edge. -/
lemma get_ghost_no_funcs_for_periodic_head (bcs : BCConfig) (funcs : List BCFunc)
    (E : String) (hE : E ∈ orientations)
    (hhead : (bcs.edge E).types.headD "" = "periodic")
    (hok : get_ghost_cell_updaters bcs = Except.ok funcs) :
    ∀ f ∈ funcs, f.ornt ≠ E := by
  obtain ⟨fw, fe, fs, fn, hw, he, hs, hn, rfl⟩ := get_ghost_ok bcs funcs hok
  simp only [orientations, List.mem_cons, List.not_mem_nil, or_false] at hE
  have hmem4 : ∀ f ∈ fw ++ fe ++ fs ++ fn, f ∈ fw ∨ f ∈ fe ∨ f ∈ fs ∨ f ∈ fn := by
    intro f hf
    simp only [List.mem_append] at hf
    tauto
  rcases hE with rfl | rfl | rfl | rfl
  · have hh : bcs.west.types.headD "" = "periodic" := hhead
    rw [edge_updaters_periodic "west" bcs.west hh] at hw
    cases hw
    intro f hf
    rcases hmem4 f hf with hf' | hf' | hf' | hf'
    · exact absurd hf' (List.not_mem_nil f)
    · rw [edge_updaters_ornt "east" bcs.east fe he f hf']; decide
    · rw [edge_updaters_ornt "south" bcs.south fs hs f hf']; decide
    · rw [edge_updaters_ornt "north" bcs.north fn hn f hf']; decide
  · have hh : bcs.east.types.headD "" = "periodic" := hhead
    rw [edge_updaters_periodic "east" bcs.east hh] at he
    cases he
    intro f hf
    rcases hmem4 f hf with hf' | hf' | hf' | hf'
    · rw [edge_updaters_ornt "west" bcs.west fw hw f hf']; decide
    · exact absurd hf' (List.not_mem_nil f)
    · rw [edge_updaters_ornt "south" bcs.south fs hs f hf']; decide
    · rw [edge_updaters_ornt "north" bcs.north fn hn f hf']; decide
  · have hh : bcs.south.types.headD "" = "periodic" := hhead
    rw [edge_updaters_periodic "south" bcs.south hh] at hs
    cases hs
    intro f hf
    rcases hmem4 f hf with hf' | hf' | hf' | hf'
    · rw [edge_updaters_ornt "west" bcs.west fw hw f hf']; decide
    · rw [edge_updaters_ornt "east" bcs.east fe he f hf']; decide
    · exact absurd hf' (List.not_mem_nil f)
    · rw [edge_updaters_ornt "north" bcs.north fn hn f hf']; decide
  · have hh : bcs.north.types.headD "" = "periodic" := hhead
    rw [edge_updaters_periodic "north" bcs.north hh] at hn
    cases hn
    intro f hf
    rcases hmem4 f hf with hf' | hf' | hf' | hf'
    · rw [edge_updaters_ornt "west" bcs.west fw hw f hf']; decide
    · rw [edge_updaters_ornt "east" bcs.east fe he f hf']; decide
    · rw [edge_updaters_ornt "south" bcs.south fs hs f hf']; decide
    · exact absurd hf' (List.not_mem_nil f)

/-! ### Claim C6 -/

/-- C6: for an edge declared fully periodic, get_ghost_cell_updaters
installs no updater targeting that edge, and therefore the composed
updater writes nothing into that edge's ghost margin, whatever the
backend kernels compute elsewhere. -/
theorem periodic_edge_untouched (ker : Kernels) (g : Ghost) (bcs : BCConfig)
    (E : String) (k : Fin 3) (funcs : List BCFunc)
    (hE : E ∈ orientations)
    (hper : ∀ t ∈ (bcs.edge E).types, t = "periodic")
    (hne : (bcs.edge E).types ≠ [])
    (hok : get_ghost_cell_updaters bcs = Except.ok funcs) :
    funcs.filter (fun f => f.ornt == E) = []
    ∧ run_updaters ker funcs g E k = g E k := by
  have hhead : (bcs.edge E).types.headD "" = "periodic" := by
    obtain ⟨t0, ts, hbc⟩ := List.exists_cons_of_ne_nil hne
    rw [hbc, List.headD_cons]
    exact hper t0 (by rw [hbc]; exact List.mem_cons_self t0 ts)
  have hfr := get_ghost_no_funcs_for_periodic_head bcs funcs E hE hhead hok
  exact ⟨filter_ornt_ne funcs E hfr, run_updaters_frame ker funcs g E k hfr⟩

def periodicSide : BCSide :=
  { types := ["periodic", "periodic", "periodic"], values := [none, none, none] }

def bcsAllPeriodic : BCConfig :=
  { west := periodicSide, east := periodicSide, south := periodicSide, north := periodicSide }

def sampleKernels : Kernels :=
  { outflow_val := fun _ _ => []
  , extrap_val := fun _ _ => []
  , const_val := fun _ _ _ => []
  , inflow_val := fun _ _ _ => [] }

def sampleGhost : Ghost := fun _ _ => [0]

/-- Witness for C6: a configuration with every edge periodic installs no
updater at all, and the west margin is untouched. -/
theorem periodic_edge_untouched_witness :
    ([] : List BCFunc).filter (fun f => f.ornt == "west") = []
    ∧ run_updaters sampleKernels [] sampleGhost "west" 0 = sampleGhost "west" 0 :=
  periodic_edge_untouched sampleKernels sampleGhost bcsAllPeriodic "west" 0 []
    (by decide) (by decide) (by decide) rfl

/-! ### Claim C9 -/

/-- C9: get_ghost_cell_updaters decides the periodic skip by inspecting
the first component alone: if component 0 of an edge is periodic, no
updater is installed for that edge, regardless of the policies declared
for its remaining components. -/
theorem periodic_head_skips_edge (bcs : BCConfig) (E : String) (funcs : List BCFunc)
    (hE : E ∈ orientations)
    (hhead : (bcs.edge E).types.headD "" = "periodic")
    (hok : get_ghost_cell_updaters bcs = Except.ok funcs) :
    funcs.filter (fun f => f.ornt == E) = [] :=
  filter_ornt_ne funcs E (get_ghost_no_funcs_for_periodic_head bcs funcs E hE hhead hok)

def bcsMixedPeriodic : BCConfig :=
  { west := { types := ["periodic", "outflow", "inflow"], values := [none, none, none] }
  , east := periodicSide, south := periodicSide, north := periodicSide }

/-- Witness for C9: west declares periodic only for component 0 - the
whole west edge is still skipped. -/
theorem periodic_head_skips_edge_witness :
    ([] : List BCFunc).filter (fun f => f.ornt == "west") = [] :=
  periodic_head_skips_edge bcsMixedPeriodic "west" [] (by decide) (by decide) rfl

/-! ### Lemmas about init_bc -/

lemma bc_helper_unsupported (o t : String) (v : Option ℚ) (c : Int)
    (h1 : t ≠ "extrap") (h2 : t ≠ "const") :
    bc_helper o t v c = ([], ["ERROR: Unsupported boundary condition."]) := by
  simp [bc_helper, h1, h2]

lemma bc_helper_ornt (o t : String) (v : Option ℚ) (c : Int) :
    ∀ f ∈ (bc_helper o t v c).1, f.ornt = o := by
  unfold bc_helper
  split_ifs <;> simp [BCFunc.ornt]

lemma init_comps_ornt (o : String) (pairs : List (String × Option ℚ)) (i : ℕ) :
    ∀ f ∈ (init_comps o i pairs).1, f.ornt = o := by
  induction pairs generalizing i with
  | nil => simp [init_comps]
  | cons p rest ih =>
    obtain ⟨bctp, bcv⟩ := p
    intro f hf
    simp only [init_comps, List.mem_append] at hf
    rcases hf with hf | hf
    · exact bc_helper_ornt o bctp bcv (Int.ofNat i) f hf
    · exact ih (i + 1) f hf

lemma init_edge_ornt (vb : Bool) (o : String) (bc : BCSide) :
    ∀ f ∈ (init_edge vb o bc).1, f.ornt = o := by
  unfold init_edge
  split
  · exact bc_helper_ornt o (bc.types.headD "") (bc.values.headD none) (-1)
  · exact init_comps_ornt o (bc.types.zip bc.values) 0

lemma init_comps_unsupported (o : String) (pairs : List (String × Option ℚ)) (i : ℕ)
    (h : ∀ p ∈ pairs, p.1 ≠ "extrap" ∧ p.1 ≠ "const") :
    (init_comps o i pairs).1 = [] ∧ (init_comps o i pairs).2.length = pairs.length := by
  induction pairs generalizing i with
  | nil => simp [init_comps]
  | cons p rest ih =>
    obtain ⟨bctp, bcv⟩ := p
    have hp := h (bctp, bcv) (List.mem_cons_self _ _)
    have hr := ih (i + 1) (fun q hq => h q (List.mem_cons_of_mem _ hq))
    simp only [init_comps]
    rw [bc_helper_unsupported o bctp bcv (Int.ofNat i) hp.1 hp.2]
    simp [hr.1, hr.2, Nat.add_comm]

lemma init_edge_unsupported (vb : Bool) (o : String) (bc : BCSide)
    (htne : bc.types ≠ []) (hvne : bc.values ≠ [])
    (hall : ∀ t ∈ bc.types, t ≠ "extrap" ∧ t ≠ "const") :
    (init_edge vb o bc).1 = [] ∧ (init_edge vb o bc).2 ≠ [] := by
  obtain ⟨t0, ts, hbt⟩ := List.exists_cons_of_ne_nil htne
  obtain ⟨v0, vs, hbv⟩ := List.exists_cons_of_ne_nil hvne
  unfold init_edge
  split
  · have hmem0 : bc.types.headD "" ∈ bc.types := by
      rw [hbt, List.headD_cons]
      exact List.mem_cons_self t0 ts
    have h0 := hall (bc.types.headD "") hmem0
    rw [bc_helper_unsupported o (bc.types.headD "") (bc.values.headD none) (-1) h0.1 h0.2]
    exact ⟨rfl, by simp⟩
  · have hzip : ∀ p ∈ bc.types.zip bc.values, p.1 ≠ "extrap" ∧ p.1 ≠ "const" := by
      intro p hp
      exact hall p.1 (List.of_mem_zip hp).1
    have hcomp := init_comps_unsupported o (bc.types.zip bc.values) 0 hzip
    refine ⟨hcomp.1, ?_⟩
    intro hnil
    have hlen : (bc.types.zip bc.values).length = 0 := by
      rw [← hcomp.2, hnil]
      rfl
    rw [hbt, hbv] at hlen
    simp at hlen

lemma get_ghost_not_ok_of_edge_error (bcs : BCConfig) (E : String)
    (hE : E ∈ orientations)
    (hfail : exceptOk (edge_updaters E (bcs.edge E)) = false) :
    exceptOk (get_ghost_cell_updaters bcs) = false := by
  cases hg : get_ghost_cell_updaters bcs with
  | error e => rfl
  | ok funcs =>
    exfalso
    obtain ⟨fw, fe, fs, fn, hw, he, hs, hn, -⟩ := get_ghost_ok bcs funcs hg
    simp only [orientations, List.mem_cons, List.not_mem_nil, or_false] at hE
    rcases hE with rfl | rfl | rfl | rfl
    · have hf : exceptOk (edge_updaters "west" bcs.west) = false := hfail
      rw [hw] at hf
      simp [exceptOk] at hf
    · have hf : exceptOk (edge_updaters "east" bcs.east) = false := hfail
      rw [he] at hf
      simp [exceptOk] at hf
    · have hf : exceptOk (edge_updaters "south" bcs.south) = false := hfail
      rw [hs] at hf
      simp [exceptOk] at hf
    · have hf : exceptOk (edge_updaters "north" bcs.north) = false := hfail
      rw [hn] at hf
      simp [exceptOk] at hf

lemma init_bc_filter_at (vb : Bool) (bcs : BCConfig) (E : String)
    (hE : E ∈ orientations) :
    (init_bc bcs vb).1.filter (fun f => f.ornt == E)
      = (init_edge vb E (bcs.edge E)).1.filter (fun f => f.ornt == E) := by
  have hfw := init_edge_ornt vb "west" bcs.west
  have hfe := init_edge_ornt vb "east" bcs.east
  have hfs := init_edge_ornt vb "south" bcs.south
  have hfn := init_edge_ornt vb "north" bcs.north
  have hw0 : (init_edge vb "west" bcs.west).1.filter (fun f => f.ornt == "east") = [] :=
    filter_ornt_ne _ _ (fun f hf => by rw [hfw f hf]; decide)
  have hw1 : (init_edge vb "west" bcs.west).1.filter (fun f => f.ornt == "south") = [] :=
    filter_ornt_ne _ _ (fun f hf => by rw [hfw f hf]; decide)
  have hw2 : (init_edge vb "west" bcs.west).1.filter (fun f => f.ornt == "north") = [] :=
    filter_ornt_ne _ _ (fun f hf => by rw [hfw f hf]; decide)
  have he0 : (init_edge vb "east" bcs.east).1.filter (fun f => f.ornt == "west") = [] :=
    filter_ornt_ne _ _ (fun f hf => by rw [hfe f hf]; decide)
  have he1 : (init_edge vb "east" bcs.east).1.filter (fun f => f.ornt == "south") = [] :=
    filter_ornt_ne _ _ (fun f hf => by rw [hfe f hf]; decide)
  have he2 : (init_edge vb "east" bcs.east).1.filter (fun f => f.ornt == "north") = [] :=
    filter_ornt_ne _ _ (fun f hf => by rw [hfe f hf]; decide)
  have hs0 : (init_edge vb "south" bcs.south).1.filter (fun f => f.ornt == "west") = [] :=
    filter_ornt_ne _ _ (fun f hf => by rw [hfs f hf]; decide)
  have hs1 : (init_edge vb "south" bcs.south).1.filter (fun f => f.ornt == "east") = [] :=
    filter_ornt_ne _ _ (fun f hf => by rw [hfs f hf]; decide)
  have hs2 : (init_edge vb "south" bcs.south).1.filter (fun f => f.ornt == "north") = [] :=
    filter_ornt_ne _ _ (fun f hf => by rw [hfs f hf]; decide)
  have hn0 : (init_edge vb "north" bcs.north).1.filter (fun f => f.ornt == "west") = [] :=
    filter_ornt_ne _ _ (fun f hf => by rw [hfn f hf]; decide)
  have hn1 : (init_edge vb "north" bcs.north).1.filter (fun f => f.ornt == "east") = [] :=
    filter_ornt_ne _ _ (fun f hf => by rw [hfn f hf]; decide)
  have hn2 : (init_edge vb "north" bcs.north).1.filter (fun f => f.ornt == "south") = [] :=
    filter_ornt_ne _ _ (fun f hf => by rw [hfn f hf]; decide)
  simp only [orientations, List.mem_cons, List.not_mem_nil, or_false] at hE
  rcases hE with rfl | rfl | rfl | rfl
  · have hre : bcs.edge "west" = bcs.west := rfl
    rw [hre]
    show ((init_edge vb "west" bcs.west).1 ++ (init_edge vb "east" bcs.east).1
        ++ (init_edge vb "south" bcs.south).1 ++ (init_edge vb "north" bcs.north).1).filter
        (fun f => f.ornt == "west") = _
    rw [List.filter_append, List.filter_append, List.filter_append, he0, hs0, hn0]
    simp
  · have hre : bcs.edge "east" = bcs.east := rfl
    rw [hre]
    show ((init_edge vb "west" bcs.west).1 ++ (init_edge vb "east" bcs.east).1
        ++ (init_edge vb "south" bcs.south).1 ++ (init_edge vb "north" bcs.north).1).filter
        (fun f => f.ornt == "east") = _
    rw [List.filter_append, List.filter_append, List.filter_append, hw0, hs1, hn1]
    simp
  · have hre : bcs.edge "south" = bcs.south := rfl
    rw [hre]
    show ((init_edge vb "west" bcs.west).1 ++ (init_edge vb "east" bcs.east).1
        ++ (init_edge vb "south" bcs.south).1 ++ (init_edge vb "north" bcs.north).1).filter
        (fun f => f.ornt == "south") = _
    rw [List.filter_append, List.filter_append, List.filter_append, hw1, he1, hn2]
    simp
  · have hre : bcs.edge "north" = bcs.north := rfl
    rw [hre]
    show ((init_edge vb "west" bcs.west).1 ++ (init_edge vb "east" bcs.east).1
        ++ (init_edge vb "south" bcs.south).1 ++ (init_edge vb "north" bcs.north).1).filter
        (fun f => f.ornt == "north") = _
    rw [List.filter_append, List.filter_append, List.filter_append, hw2, he2, hs2]
    simp

lemma init_bc_prints_ne_nil (vb : Bool) (bcs : BCConfig) (E : String)
    (hE : E ∈ orientations)
    (hEpr : (init_edge vb E (bcs.edge E)).2 ≠ []) :
    (init_bc bcs vb).2 ≠ [] := by
  intro h0
  have h0' : (init_edge vb "west" bcs.west).2 = [] ∧ (init_edge vb "east" bcs.east).2 = []
      ∧ (init_edge vb "south" bcs.south).2 = [] ∧ (init_edge vb "north" bcs.north).2 = [] := by
    have hx : (init_edge vb "west" bcs.west).2 ++ (init_edge vb "east" bcs.east).2
        ++ (init_edge vb "south" bcs.south).2 ++ (init_edge vb "north" bcs.north).2 = [] := h0
    simpa [List.append_eq_nil] using hx
  simp only [orientations, List.mem_cons, List.not_mem_nil, or_false] at hE
  rcases hE with rfl | rfl | rfl | rfl
  · exact hEpr h0'.1
  · exact hEpr h0'.2.1
  · exact hEpr h0'.2.2.1
  · exact hEpr h0'.2.2.2

/-! ### Claim C3 -/

lemma bc_helper_comp (o t : String) (v : Option ℚ) (c : Int) :
    ∀ f ∈ (bc_helper o t v c).1, f.comp = c := by
  unfold bc_helper
  split_ifs <;> simp [BCFunc.comp]

lemma init_comps_comp_ge (o : String) (pairs : List (String × Option ℚ)) (i : ℕ) :
    ∀ f ∈ (init_comps o i pairs).1, ∃ k, f.comp = Int.ofNat k ∧ i ≤ k := by
  induction pairs generalizing i with
  | nil => simp [init_comps]
  | cons p rest ih =>
    obtain ⟨bctp, bcv⟩ := p
    intro f hf
    simp only [init_comps, List.mem_append] at hf
    rcases hf with hf | hf
    · exact ⟨i, bc_helper_comp o bctp bcv (Int.ofNat i) f hf, le_refl i⟩
    · obtain ⟨k, hk, hik⟩ := ih (i + 1) f hf
      exact ⟨k, hk, Nat.le_of_succ_le hik⟩

lemma init_comps_prints_of_unsupported (o : String) (pairs : List (String × Option ℚ))
    (i : ℕ) (t : String) (v : Option ℚ)
    (hmem : (t, v) ∈ pairs) (h2 : t ≠ "extrap") (h3 : t ≠ "const") :
    (init_comps o i pairs).2 ≠ [] := by
  induction pairs generalizing i with
  | nil => simp at hmem
  | cons p rest ih =>
    obtain ⟨bctp, bcv⟩ := p
    intro hnil
    simp only [init_comps] at hnil
    rw [List.append_eq_nil] at hnil
    rcases List.mem_cons.1 hmem with heq | hmem'
    · injection heq with ha hb
      subst ha
      subst hb
      have h1' := hnil.1
      rw [bc_helper_unsupported o t v (Int.ofNat i) h2 h3] at h1'
      exact List.noConfusion h1'
    · exact ih (i + 1) hmem' hnil.2

lemma ofNat_ne_ofNat_of_ne (a b : ℕ) (h : a ≠ b) : Int.ofNat a ≠ Int.ofNat b := by
  simpa using h

lemma init_comps_no_comp_at_unsupported (o : String) (pairs : List (String × Option ℚ))
    (i j : ℕ) (t : String) (v : Option ℚ)
    (hj : pairs[j]? = some (t, v)) (h2 : t ≠ "extrap") (h3 : t ≠ "const") :
    ∀ f ∈ (init_comps o i pairs).1, f.comp ≠ Int.ofNat (i + j) ∧ f.comp ≠ -1 := by
  induction pairs generalizing i j with
  | nil => simp [init_comps]
  | cons p rest ih =>
    obtain ⟨bctp, bcv⟩ := p
    intro f hf
    simp only [init_comps, List.mem_append] at hf
    cases j with
    | zero =>
      rw [List.getElem?_cons_zero] at hj
      injection hj with hj'
      injection hj' with ha hb
      subst ha
      subst hb
      rcases hf with hf | hf
      · rw [bc_helper_unsupported o bctp bcv (Int.ofNat i) h2 h3] at hf
        exact absurd hf (List.not_mem_nil f)
      · obtain ⟨k, hk, hik⟩ := init_comps_comp_ge o rest (i + 1) f hf
        constructor
        · rw [hk]
          exact ofNat_ne_ofNat_of_ne k (i + 0) (by omega)
        · rw [hk]
          simp
    | succ j' =>
      rw [List.getElem?_cons_succ] at hj
      rcases hf with hf | hf
      · have hc := bc_helper_comp o bctp bcv (Int.ofNat i) f hf
        constructor
        · rw [hc]
          exact ofNat_ne_ofNat_of_ne i (i + (j' + 1)) (by omega)
        · rw [hc]
          simp
      · have hih := ih (i + 1) j' hj f hf
        constructor
        · have harith : (i + 1) + j' = i + (j' + 1) := by omega
          rw [← harith]
          exact hih.1
        · exact hih.2

lemma eq_of_dedup_length_one {α : Type} [DecidableEq α] (l : List α)
    (h : l.dedup.length = 1) (a b : α) (ha : a ∈ l) (hb : b ∈ l) : a = b := by
  obtain ⟨x, hx⟩ := List.length_eq_one.1 h
  have ha' : a ∈ l.dedup := List.mem_dedup.2 ha
  have hb' : b ∈ l.dedup := List.mem_dedup.2 hb
  rw [hx] at ha' hb'
  simp only [List.mem_singleton] at ha' hb'
  rw [ha', hb']

lemma init_edge_prints_of_unsupported (vb : Bool) (o : String) (bc : BCSide)
    (t : String) (v : Option ℚ)
    (hmem : (t, v) ∈ bc.types.zip bc.values) (h2 : t ≠ "extrap") (h3 : t ≠ "const") :
    (init_edge vb o bc).2 ≠ [] := by
  have htmem : t ∈ bc.types := (List.of_mem_zip hmem).1
  unfold init_edge
  split_ifs with hcond
  · obtain ⟨-, hdt, -⟩ := hcond
    have hne : bc.types ≠ [] := List.ne_nil_of_mem htmem
    obtain ⟨t0, ts, hbt⟩ := List.exists_cons_of_ne_nil hne
    have hh : bc.types.headD "" = t := by
      rw [hbt, List.headD_cons]
      exact eq_of_dedup_length_one bc.types hdt t0 t
        (by rw [hbt]; exact List.mem_cons_self t0 ts) htmem
    rw [hh, bc_helper_unsupported o t (bc.values.headD none) (-1) h2 h3]
    simp
  · exact init_comps_prints_of_unsupported o (bc.types.zip bc.values) 0 t v hmem h2 h3

lemma init_edge_no_updater_for_unknown_pair (vb : Bool) (o : String) (bc : BCSide)
    (j : ℕ) (t : String) (v : Option ℚ)
    (hj : (bc.types.zip bc.values)[j]? = some (t, v))
    (h2 : t ≠ "extrap") (h3 : t ≠ "const") :
    ∀ f ∈ (init_edge vb o bc).1, f.comp ≠ Int.ofNat j ∧ f.comp ≠ -1 := by
  have hmem : (t, v) ∈ bc.types.zip bc.values := List.getElem?_mem hj
  have htmem : t ∈ bc.types := (List.of_mem_zip hmem).1
  unfold init_edge
  split_ifs with hcond
  · obtain ⟨-, hdt, -⟩ := hcond
    have hne : bc.types ≠ [] := List.ne_nil_of_mem htmem
    obtain ⟨t0, ts, hbt⟩ := List.exists_cons_of_ne_nil hne
    have hh : bc.types.headD "" = t := by
      rw [hbt, List.headD_cons]
      exact eq_of_dedup_length_one bc.types hdt t0 t
        (by rw [hbt]; exact List.mem_cons_self t0 ts) htmem
    rw [hh, bc_helper_unsupported o t (bc.values.headD none) (-1) h2 h3]
    simp
  · intro f hf
    obtain ⟨hr1, hr2⟩ :=
      init_comps_no_comp_at_unsupported o (bc.types.zip bc.values) 0 j t v hj h2 h3 f hf
    rw [Nat.zero_add] at hr1
    exact ⟨hr1, hr2⟩

lemma unknown_pair_pred_false (E : String) (j : ℕ) (f : BCFunc)
    (h : f.ornt ≠ E ∨ (f.comp ≠ -1 ∧ f.comp ≠ Int.ofNat j)) :
    (f.ornt == E && (f.comp == (-1 : Int) || f.comp == Int.ofNat j)) = false := by
  rcases h with h | ⟨h1, h2⟩
  · simp [beq_false_of_ne h]
  · have h1' : (f.comp == (-1 : Int)) = false := beq_false_of_ne h1
    have h2' : (f.comp == Int.ofNat j) = false := beq_false_of_ne h2
    simp only [h1', h2', Bool.or_self, Bool.and_false]

lemma filter_eq_nil_of_pred_false (p : BCFunc → Bool) (l : List BCFunc)
    (h : ∀ f ∈ l, p f = false) : l.filter p = [] := by
  induction l with
  | nil => rfl
  | cons f rest ih =>
    rw [List.filter_cons, h f (List.mem_cons_self f rest)]
    exact ih (fun f' hf' => h f' (List.mem_cons_of_mem f hf'))

/-- C3 (amended): a policy string outside the five known policies at some
(edge, component) pair of an edge whose leading component is not periodic
makes get_ghost_cell_updaters raise ValueError; init_bc (and so setup_bc)
does not raise - it installs no updater for that pair (neither a
per-component one for that index nor a collapsed components = -1 one for
the edge) and prints an error line for it. -/
theorem unknown_policy_error (bcs : BCConfig) (E : String) (vb : Bool)
    (t : String) (v : Option ℚ) (j : ℕ)
    (hE : E ∈ orientations)
    (hhead : (bcs.edge E).types.headD "" ≠ "periodic")
    (hpair : ((bcs.edge E).types.zip (bcs.edge E).values)[j]? = some (t, v))
    (hunk : t ≠ "outflow" ∧ t ≠ "extrap" ∧ t ≠ "const" ∧ t ≠ "inflow" ∧ t ≠ "periodic") :
    exceptOk (get_ghost_cell_updaters bcs) = false
    ∧ (init_bc bcs vb).1.filter
        (fun f => f.ornt == E && (f.comp == (-1 : Int) || f.comp == Int.ofNat j)) = []
    ∧ (init_bc bcs vb).2 ≠ [] := by
  obtain ⟨h1, h2, h3, h4, -⟩ := hunk
  have hmem : (t, v) ∈ (bcs.edge E).types.zip (bcs.edge E).values := List.getElem?_mem hpair
  have hfail := edge_updaters_error_of_unknown E (bcs.edge E) t v hhead hmem h1 h2 h3 h4
  have hcompE := init_edge_no_updater_for_unknown_pair vb E (bcs.edge E) j t v hpair h2 h3
  refine ⟨get_ghost_not_ok_of_edge_error bcs E hE hfail, ?_,
    init_bc_prints_ne_nil vb bcs E hE
      (init_edge_prints_of_unsupported vb E (bcs.edge E) t v hmem h2 h3)⟩
  apply filter_eq_nil_of_pred_false
  intro f hf
  have hf4 : f ∈ (init_edge vb "west" bcs.west).1 ∨ f ∈ (init_edge vb "east" bcs.east).1
      ∨ f ∈ (init_edge vb "south" bcs.south).1 ∨ f ∈ (init_edge vb "north" bcs.north).1 := by
    have hx : f ∈ (init_edge vb "west" bcs.west).1 ++ (init_edge vb "east" bcs.east).1
        ++ (init_edge vb "south" bcs.south).1 ++ (init_edge vb "north" bcs.north).1 := hf
    simp only [List.mem_append] at hx
    tauto
  have hfw := init_edge_ornt vb "west" bcs.west
  have hfe := init_edge_ornt vb "east" bcs.east
  have hfs := init_edge_ornt vb "south" bcs.south
  have hfn := init_edge_ornt vb "north" bcs.north
  apply unknown_pair_pred_false
  simp only [orientations, List.mem_cons, List.not_mem_nil, or_false] at hE
  rcases hE with rfl | rfl | rfl | rfl
  · rcases hf4 with hfx | hfx | hfx | hfx
    · right
      have hc := hcompE f hfx
      exact ⟨hc.2, hc.1⟩
    · left; rw [hfe f hfx]; decide
    · left; rw [hfs f hfx]; decide
    · left; rw [hfn f hfx]; decide
  · rcases hf4 with hfx | hfx | hfx | hfx
    · left; rw [hfw f hfx]; decide
    · right
      have hc := hcompE f hfx
      exact ⟨hc.2, hc.1⟩
    · left; rw [hfs f hfx]; decide
    · left; rw [hfn f hfx]; decide
  · rcases hf4 with hfx | hfx | hfx | hfx
    · left; rw [hfw f hfx]; decide
    · left; rw [hfe f hfx]; decide
    · right
      have hc := hcompE f hfx
      exact ⟨hc.2, hc.1⟩
    · left; rw [hfn f hfx]; decide
  · rcases hf4 with hfx | hfx | hfx | hfx
    · left; rw [hfw f hfx]; decide
    · left; rw [hfe f hfx]; decide
    · left; rw [hfs f hfx]; decide
    · right
      have hc := hcompE f hfx
      exact ⟨hc.2, hc.1⟩

def unknownSide : BCSide :=
  { types := ["nonsense", "nonsense", "nonsense"], values := [none, none, none] }

def bcsUnknown : BCConfig :=
  { west := unknownSide, east := unknownSide, south := unknownSide, north := unknownSide }

def bcsMixedUnknown : BCConfig :=
  { west := { types := ["outflow", "nonsense", "const"], values := [none, none, some 2] }
  , east := unknownSide, south := unknownSide, north := unknownSide }

/-- Witness for C3 at a mixed edge: west declares outflow, an unknown
policy "nonsense" at component 1, and const - the unknown pair alone
triggers the ValueError and the init_bc skip of that pair. -/
theorem unknown_policy_error_witness :
    exceptOk (get_ghost_cell_updaters bcsMixedUnknown) = false
    ∧ (init_bc bcsMixedUnknown false).1.filter
        (fun f => f.ornt == "west" && (f.comp == (-1 : Int) || f.comp == Int.ofNat 1)) = []
    ∧ (init_bc bcsMixedUnknown false).2 ≠ [] :=
  unknown_policy_error bcsMixedUnknown "west" false "nonsense" none 1
    (by decide) (by decide) (by decide) (by decide)

/-- Counterexample to C3 as stated: with every policy unknown, init_bc
does not raise any error - it returns normally, installing no updater at
all and merely recording twelve printed error lines (its embedding is a
total function, while get_ghost_cell_updaters returns Except.error here). -/
theorem unknown_policy_error_counterexample :
    init_bc bcsUnknown false
      = ([], List.replicate 12 "ERROR: Unsupported boundary condition.") := by
  decide

/-! ### Claim C7 -/

/-- The value an updater chain leaves at one ghost position depends on the
incoming margins only through that same position. -/
lemma run_updaters_congr_at (ker : Kernels) (l : List BCFunc) (X Y : Ghost)
    (o : String) (k : Fin 3) (h : X o k = Y o k) :
    run_updaters ker l X o k = run_updaters ker l Y o k := by
  induction l generalizing X Y with
  | nil => exact h
  | cons f rest ih =>
    show run_updaters ker rest (apply_bc ker f X) o k
        = run_updaters ker rest (apply_bc ker f Y) o k
    apply ih
    cases f with
    | outflow_bc o1 c =>
      simp only [apply_bc]
      split
      · rfl
      · exact h
    | linear_extrap_bc o1 c =>
      simp only [apply_bc]
      split
      · rfl
      · exact h
    | const_val_bc o1 c v =>
      simp only [apply_bc]
      split
      · rfl
      · exact h
    | inflow_bc o1 c v =>
      simp only [apply_bc]
      split
      · rfl
      · exact h

/-- At one edge's margin, the composed init_bc updater acts exactly as the
updaters installed for that edge alone. -/
lemma init_bc_margin_at (ker : Kernels) (vb : Bool) (bcs : BCConfig) (E : String)
    (k : Fin 3) (g : Ghost) (hE : E ∈ orientations) :
    run_updaters ker (init_bc bcs vb).1 g E k
      = run_updaters ker (init_edge vb E (bcs.edge E)).1 g E k := by
  have hfw := init_edge_ornt vb "west" bcs.west
  have hfe := init_edge_ornt vb "east" bcs.east
  have hfs := init_edge_ornt vb "south" bcs.south
  have hfn := init_edge_ornt vb "north" bcs.north
  simp only [orientations, List.mem_cons, List.not_mem_nil, or_false] at hE
  rcases hE with rfl | rfl | rfl | rfl
  · have hre : bcs.edge "west" = bcs.west := rfl
    rw [hre]
    show run_updaters ker ((init_edge vb "west" bcs.west).1 ++ (init_edge vb "east" bcs.east).1
        ++ (init_edge vb "south" bcs.south).1 ++ (init_edge vb "north" bcs.north).1) g "west" k = _
    rw [List.append_assoc, List.append_assoc, run_updaters_append]
    rw [run_updaters_frame ker _ _ "west" k (by
      intro f hf
      simp only [List.mem_append] at hf
      rcases hf with hf | hf | hf
      · rw [hfe f hf]; decide
      · rw [hfs f hf]; decide
      · rw [hfn f hf]; decide)]
  · have hre : bcs.edge "east" = bcs.east := rfl
    rw [hre]
    show run_updaters ker ((init_edge vb "west" bcs.west).1 ++ (init_edge vb "east" bcs.east).1
        ++ (init_edge vb "south" bcs.south).1 ++ (init_edge vb "north" bcs.north).1) g "east" k = _
    rw [List.append_assoc, List.append_assoc, run_updaters_append, run_updaters_append,
      run_updaters_frame ker _ _ "east" k (by
        intro f hf
        simp only [List.mem_append] at hf
        rcases hf with hf | hf
        · rw [hfs f hf]; decide
        · rw [hfn f hf]; decide)]
    exact run_updaters_congr_at ker _ _ g "east" k
      (run_updaters_frame ker _ g "east" k (fun f hf => by rw [hfw f hf]; decide))
  · have hre : bcs.edge "south" = bcs.south := rfl
    rw [hre]
    show run_updaters ker ((init_edge vb "west" bcs.west).1 ++ (init_edge vb "east" bcs.east).1
        ++ (init_edge vb "south" bcs.south).1 ++ (init_edge vb "north" bcs.north).1) g "south" k = _
    rw [List.append_assoc, List.append_assoc, run_updaters_append, run_updaters_append,
      run_updaters_append,
      run_updaters_frame ker _ _ "south" k (fun f hf => by rw [hfn f hf]; decide)]
    exact run_updaters_congr_at ker _ _ g "south" k
      (by
        rw [run_updaters_frame ker _ _ "south" k (fun f hf => by rw [hfe f hf]; decide)]
        exact run_updaters_frame ker _ g "south" k (fun f hf => by rw [hfw f hf]; decide))
  · have hre : bcs.edge "north" = bcs.north := rfl
    rw [hre]
    show run_updaters ker ((init_edge vb "west" bcs.west).1 ++ (init_edge vb "east" bcs.east).1
        ++ (init_edge vb "south" bcs.south).1 ++ (init_edge vb "north" bcs.north).1) g "north" k = _
    rw [List.append_assoc, List.append_assoc, run_updaters_append, run_updaters_append,
      run_updaters_append]
    exact run_updaters_congr_at ker _ _ g "north" k
      (by
        rw [run_updaters_frame ker _ _ "north" k (fun f hf => by rw [hfs f hf]; decide)]
        rw [run_updaters_frame ker _ _ "north" k (fun f hf => by rw [hfe f hf]; decide)]
        exact run_updaters_frame ker _ g "north" k (fun f hf => by rw [hfw f hf]; decide))

lemma dedup_triple {α : Type} [DecidableEq α] (a : α) : ([a, a, a] : List α).dedup = [a] := by
  simp

/-- One uniform edge: the single vectorized factory call and the
per-component loop write the same ghost margins, and the vectorized call
installs exactly one updater when the shared policy is one of the two
init_bc-supported policies, none otherwise. -/
lemma init_edge_uniform (ker : Kernels) (o t : String) (v : Option ℚ) (bc : BCSide)
    (g : Ghost) (k : Fin 3)
    (ht : bc.types = [t, t, t]) (hv : bc.values = [v, v, v]) :
    run_updaters ker (init_edge true o bc).1 g o k
      = run_updaters ker (init_edge false o bc).1 g o k
    ∧ ((init_edge true o bc).1.filter (fun f => f.ornt == o)).length
      = (if t = "extrap" ∨ t = "const" then 1 else 0) := by
  obtain ⟨types, values⟩ := bc
  simp only at ht hv
  subst ht
  subst hv
  have hedT : init_edge true o ⟨[t, t, t], [v, v, v]⟩ = bc_helper o t v (-1) := by
    unfold init_edge
    rw [if_pos ⟨rfl, by rw [dedup_triple]; rfl, by rw [dedup_triple]; rfl⟩]
    rfl
  have hedF : init_edge false o ⟨[t, t, t], [v, v, v]⟩
      = init_comps o 0 ([(t, v), (t, v), (t, v)]) := by
    unfold init_edge
    rw [if_neg (by rintro ⟨hfalse, -⟩; exact Bool.noConfusion hfalse)]
    rfl
  rw [hedT, hedF]
  by_cases hte : t = "extrap"
  · subst hte
    constructor
    · show run_updaters ker [BCFunc.linear_extrap_bc o (-1)] g o k
          = run_updaters ker [BCFunc.linear_extrap_bc o 0, BCFunc.linear_extrap_bc o 1,
              BCFunc.linear_extrap_bc o 2] g o k
      fin_cases k <;> norm_num [run_updaters, apply_bc]
    · norm_num [bc_helper, BCFunc.ornt, List.filter]
  · by_cases htc : t = "const"
    · subst htc
      constructor
      · show run_updaters ker [BCFunc.const_val_bc o (-1) v] g o k
            = run_updaters ker [BCFunc.const_val_bc o 0 v, BCFunc.const_val_bc o 1 v,
                BCFunc.const_val_bc o 2 v] g o k
        fin_cases k <;> norm_num [run_updaters, apply_bc]
      · norm_num [bc_helper, BCFunc.ornt, List.filter, hte]
    · rw [bc_helper_unsupported o t v (-1) hte htc]
      have hzip : ∀ p ∈ ([(t, v), (t, v), (t, v)] : List (String × Option ℚ)),
          p.1 ≠ "extrap" ∧ p.1 ≠ "const" := by
        intro p hp
        simp only [List.mem_cons, List.not_mem_nil, or_false] at hp
        rcases hp with rfl | rfl | rfl <;> exact ⟨hte, htc⟩
      have hcomp := init_comps_unsupported o ([(t, v), (t, v), (t, v)]) 0 hzip
      rw [hcomp.1]
      exact ⟨rfl, by simp [hte, htc]⟩

/-- C7 (amended): for an edge whose three components share one policy
string and one value, init_bc with vectorize_bc enabled has exactly the
same effect on that edge's ghost margin as the per-component updaters
installed with vectorize_bc disabled; the vectorized mode installs a
single collapsed updater when the shared policy is extrap or const, and
none otherwise (init_bc supports only those two policies and prints an
error for the rest). -/
theorem vectorized_bc_equivalent (ker : Kernels) (bcs : BCConfig) (E t : String)
    (v : Option ℚ) (g : Ghost) (k : Fin 3)
    (hE : E ∈ orientations)
    (ht : (bcs.edge E).types = [t, t, t])
    (hv : (bcs.edge E).values = [v, v, v]) :
    run_updaters ker (init_bc bcs true).1 g E k
      = run_updaters ker (init_bc bcs false).1 g E k
    ∧ ((init_bc bcs true).1.filter (fun f => f.ornt == E)).length
      = (if t = "extrap" ∨ t = "const" then 1 else 0) := by
  have huni := init_edge_uniform ker E t v (bcs.edge E) g k ht hv
  constructor
  · rw [init_bc_margin_at ker true bcs E k g hE, init_bc_margin_at ker false bcs E k g hE]
    exact huni.1
  · rw [init_bc_filter_at true bcs E hE]
    exact huni.2

def extrapSide : BCSide :=
  { types := ["extrap", "extrap", "extrap"], values := [none, none, none] }

def bcsExtrapUniform : BCConfig :=
  { west := extrapSide, east := extrapSide, south := extrapSide, north := extrapSide }

/-- Witness for C7: a uniform extrap west edge, component 0. -/
theorem vectorized_bc_equivalent_witness :
    run_updaters sampleKernels (init_bc bcsExtrapUniform true).1 sampleGhost "west" 0
      = run_updaters sampleKernels (init_bc bcsExtrapUniform false).1 sampleGhost "west" 0
    ∧ ((init_bc bcsExtrapUniform true).1.filter (fun f => f.ornt == "west")).length
      = (if "extrap" = "extrap" ∨ "extrap" = "const" then 1 else 0) :=
  vectorized_bc_equivalent sampleKernels bcsExtrapUniform "west" "extrap" none
    sampleGhost 0 (by decide) (by decide) (by decide)

def outflowSide : BCSide :=
  { types := ["outflow", "outflow", "outflow"], values := [none, none, none] }

def bcsOutflowUniform : BCConfig :=
  { west := outflowSide, east := outflowSide, south := outflowSide, north := outflowSide }

/-- Counterexample to C7 as stated: for a uniform outflow edge (a policy
the full subsystem supports but init_bc does not), the vectorized mode
does not install a single collapsed updater - it installs none at all
(only printing an error), so only the amended effect-equality holds. -/
theorem vectorized_bc_equivalent_counterexample :
    ¬ (((init_bc bcsOutflowUniform true).1.filter (fun f => f.ornt == "west")).length = 1) := by
  decide

end TorchSWE
